import Mathlib

/-!
Verification of the quiz lifecycle and scoring subsystem of the `vibe_trivia`
web service.  The development shallowly embeds the Python sources:

* `backend/services/scoring_service.py`  (`ScoringService.calculate_score`)
* `backend/services/trivia_service.py`   (`_parse_and_validate_response`,
  `_extract_json_from_content`, `generate_performance_phrase`,
  `_get_fallback_phrase`)
* `backend/services/persistence_service.py` (quiz registry and attempt store)
* `backend/main.py`                      (`submit_quiz` length check)

JSON values produced by `json.loads` are modelled by the inductive `JsonVal`;
numbers are modelled as integers, floating-point numbers being the one
`json.loads` value kind left out of scope.  On the modelled kinds `jsonEq`
computes Python `==`: strings, integers, booleans and `None` as in CPython
(including the numeric cross-type equalities `True == 1`, `False == 0`),
lists elementwise, and dicts by size plus per-key lookup, insensitive to key
order, exactly as `dict.__eq__`.  Python strings handled character by
character are modelled as `List Char`.
-/

set_option linter.unusedVariables false

/-- A JSON value as returned by `json.loads`, restricted to strings, integer
numbers, booleans, `null`, arrays and objects; floating-point numbers are
the one `json.loads` value kind not modelled.  Objects are insertion-ordered
field lists; `json.loads` collapses duplicated keys (last occurrence wins),
so every field list that represents a Python dict has pairwise distinct
keys. -/
inductive JsonVal where
  | str (s : String)
  | num (n : Int)
  | bool (b : Bool)
  | null
  | arr (xs : List JsonVal)
  | obj (fields : List (String × JsonVal))

/-- Python `d[key]` / `key in d` on an object's field list.  The reversal
makes the later binding win, as `json.loads` does while collapsing
duplicated keys; on the distinct-key field lists that represent Python
dicts the search direction is immaterial. -/
def dictGet (fields : List (String × JsonVal)) (key : String) : Option JsonVal :=
  (fields.reverse.find? (fun p => p.1 == key)).map (fun p => p.2)

mutual
/-- Python `==` on modelled JSON values: strings, integers, booleans and
`None` compare as in CPython, including the numeric cross-type equalities
`True == 1` and `False == 0`; lists compare elementwise; dicts compare the
way `dict.__eq__` does — equal size, and every key of the left dict bound
to an `==`-equal value in the right dict — which is insensitive to key
order. -/
def jsonEq : JsonVal → JsonVal → Bool
  | .str a, .str b => a == b
  | .num a, .num b => a == b
  | .bool a, .bool b => a == b
  | .bool a, .num b => (if a then (1 : Int) else 0) == b
  | .num a, .bool b => a == (if b then (1 : Int) else 0)
  | .null, .null => true
  | .arr xs, .arr ys => jsonEqL xs ys
  | .obj fs, .obj gs => fs.length == gs.length && jsonSubF fs gs
  | _, _ => false

/-- Elementwise `jsonEq` on arrays. -/
def jsonEqL : List JsonVal → List JsonVal → Bool
  | [], [] => true
  | x :: xs, y :: ys => jsonEq x y && jsonEqL xs ys
  | _, _ => false

/-- `jsonEq`-valued inclusion of the left field list in the right one,
looking each left key up on the right.  On distinct-key field lists (all
that `json.loads` produces) size equality plus this inclusion is exactly
Python dict equality. -/
def jsonSubF : List (String × JsonVal) → List (String × JsonVal) → Bool
  | [], _ => true
  | (k, v) :: fs, gs =>
    (match dictGet gs k with
     | some w => jsonEq v w
     | none => false) && jsonSubF fs gs
end

/-- Python `x in l` for a JSON value and a JSON array: `list.__contains__`
compares with `==`, here `jsonEq`. -/
def jsonMem (x : JsonVal) (l : List JsonVal) : Bool :=
  l.any (fun y => jsonEq x y)

mutual
/-- CPython `repr` of a modelled JSON value, used by `str` on containers:
lists render elementwise, dicts render their fields in insertion order as
`key: value` pairs — so dicts that compare `==`-equal but were built in
different key orders render differently, exactly as in CPython.  The one
simplification: quote-escaping inside nested strings is not reproduced. -/
def pyRepr : JsonVal → String
  | .str s => "\x27" ++ s ++ "\x27"
  | .num n => toString n
  | .bool b => if b then "True" else "False"
  | .null => "None"
  | .arr xs => "[" ++ String.intercalate ", " (pyReprL xs) ++ "]"
  | .obj fs => "\x7b" ++ String.intercalate ", " (pyReprF fs) ++ "\x7d"

/-- `pyRepr` mapped over an array. -/
def pyReprL : List JsonVal → List String
  | [] => []
  | x :: xs => pyRepr x :: pyReprL xs

/-- `pyRepr` mapped over an object's fields. -/
def pyReprF : List (String × JsonVal) → List String
  | [] => []
  | (k, v) :: fs => ("\x27" ++ k ++ "\x27: " ++ pyRepr v) :: pyReprF fs
end

/-- Python `str(...)` applied to a modelled JSON value, as used by the
validator's defensive coercions `str(q_data["question"])`,
`str(opt)` and `str(correct_answer)`. -/
def pyStr : JsonVal → String
  | .str s => s
  | .num n => toString n
  | .bool b => if b then "True" else "False"
  | .null => "None"
  | .arr xs => "[" ++ String.intercalate ", " (pyReprL xs) ++ "]"
  | .obj fs => "\x7b" ++ String.intercalate ", " (pyReprF fs) ++ "\x7d"

/-- `backend/models.py` `Question`. -/
structure Question where
  question : String
  options : List String
  correct_answer : String
deriving DecidableEq

/-- `backend/models.py` `QuestionResult`. -/
structure QuestionResult where
  question : String
  selected : String
  correct : String
  is_correct : Bool
deriving DecidableEq

/-- `backend/models.py` `QuizAttempt`; the `datetime` timestamp is modelled
by a natural number (only its ordering matters). -/
structure QuizAttempt where
  user_name : String
  quiz_topic : String
  score : Nat
  total : Nat
  timestamp : Nat
deriving DecidableEq

/-! ## Scoring engine (`scoring_service.py`) -/

/-- The accumulation loop of `ScoringService.calculate_score` (lines 26-42):
walk the two parallel lists, add one point per exact string match and build
the `QuestionResult` list in question order. -/
def scoreLoop : List Question → List String → Nat × List QuestionResult
  | q :: qs, a :: rest =>
      let is_correct := a == q.correct_answer
      let acc := scoreLoop qs rest
      ((if is_correct then 1 else 0) + acc.1,
        { question := q.question, selected := a, correct := q.correct_answer,
          is_correct := is_correct } :: acc.2)
  | _, _ => (0, [])

/-- `ScoringService.calculate_score`: raises `ValueError` (modelled by
`Except.error` with the source's message) when the list lengths differ,
otherwise returns the score and per-question results. -/
def calculate_score (questions : List Question) (answers : List String) :
    Except String (Nat × List QuestionResult) :=
  if questions.length ≠ answers.length then
    .error "Number of questions and answers must match"
  else
    .ok (scoreLoop questions answers)

/-! ## Question validator (`trivia_service.py`, `_parse_and_validate_response`) -/

/-- The per-question body of the validation loop (lines 335-363), checks in
source order: object shape, presence of `question`, `options`,
`correct_answer`, `options` an array, exactly 4 options, `correct_answer`
a member of the raw options (Python `in`, before any `str` coercion), and
finally the `str`-coerced `Question`.  The index `i` is 0-based; messages
use the source's 1-based `i+1`. -/
def validateQuestion (i : Nat) (q_data : JsonVal) : Except String Question :=
  match q_data with
  | .obj fields =>
    match dictGet fields "question" with
    | none => .error ("Question " ++ toString (i + 1) ++ " missing \x27question\x27 field")
    | some questionField =>
      match dictGet fields "options" with
      | none => .error ("Question " ++ toString (i + 1) ++ " missing \x27options\x27 field")
      | some optionsField =>
        match dictGet fields "correct_answer" with
        | none => .error ("Question " ++ toString (i + 1) ++ " missing \x27correct_answer\x27 field")
        | some correctField =>
          match optionsField with
          | .arr options =>
            if options.length ≠ 4 then
              .error ("Question " ++ toString (i + 1) ++ " must have exactly 4 options, got "
                ++ toString options.length)
            else if ¬ jsonMem correctField options then
              .error ("Question " ++ toString (i + 1)
                ++ " \x27correct_answer\x27 must be one of the options")
            else
              .ok { question := pyStr questionField,
                    options := options.map pyStr,
                    correct_answer := pyStr correctField }
          | _ => .error ("Question " ++ toString (i + 1) ++ " \x27options\x27 must be an array")
  | _ => .error ("Question " ++ toString (i + 1) ++ " is not an object")

/-- The `except` wrapper around each loop iteration (lines 366-367):
`raise ValueError(f"Error validating question {i+1}: {str(e)}")`. -/
def wrapQuestionError (i : Nat) (msg : String) : String :=
  "Error validating question " ++ toString (i + 1) ++ ": " ++ msg

/-- The validation loop (lines 331-364): validate each question in order,
stopping at the first failure with its wrapped message. -/
def validateQuestions : Nat → List JsonVal → Except String (List Question)
  | _, [] => .ok []
  | i, q :: rest =>
    match validateQuestion i q with
    | .error e => .error (wrapQuestionError i e)
    | .ok question =>
      match validateQuestions (i + 1) rest with
      | .error e => .error e
      | .ok qs => .ok (question :: qs)

/-- `TriviaService._parse_and_validate_response` (lines 303-369).  The
`topic` argument of the source is used only in log messages and is omitted. -/
def parse_and_validate_response (data : JsonVal) : Except String (List Question) :=
  match data with
  | .obj fields =>
    match dictGet fields "questions" with
    | none => .error "Response missing \x27questions\x27 key"
    | some (.arr questions_data) =>
      if questions_data.length ≠ 10 then
        .error ("Expected exactly 10 questions, got " ++ toString questions_data.length)
      else
        validateQuestions 0 questions_data
    | some _ => .error "\x27questions\x27 must be an array"
  | _ => .error "Response is not a JSON object"

/-! ## Performance phrase (`trivia_service.py`, lines 137-243) -/

/-- Outcome of the chat-completion call made by
`generate_performance_phrase`: the request may raise, or return a message
whose `content` is `None` or a string. -/
inductive PhraseOutcome where
  | requestError
  | content (s : Option String)

/-- The score banding of `generate_performance_phrase` (lines 150-157). -/
def performance_category (score total : Nat) : String :=
  if score == total then "Amazing"
  else if score ≥ 6 then "Decent"
  else if score ≥ 3 then "Poor"
  else "Abysmal"

/-- `TriviaService._get_fallback_phrase` (lines 235-243): the dict literal
has four distinct keys, so the lookup is a chain of comparisons with the
source's `.get` default at the end. -/
def get_fallback_phrase (category topic : String) : String :=
  if category == "Amazing" then "Outstanding knowledge of " ++ topic ++ "!"
  else if category == "Decent" then "Not bad! You know your " ++ topic ++ "."
  else if category == "Poor" then "Time to rewatch " ++ topic ++ "!"
  else if category == "Abysmal" then "You might want to brush up on " ++ topic ++ "."
  else "Thanks for playing the " ++ topic ++ " quiz!"

/-- `TriviaService.generate_performance_phrase` (lines 137-233) with the
external call abstracted by `oracle`: on a raised request error or on
falsy (`None` or empty) content it returns the fallback phrase, otherwise
the stripped content.  (`String.trim` models Python `str.strip` on ASCII
whitespace.) -/
def generate_performance_phrase (oracle : PhraseOutcome) (topic : String)
    (score total : Nat) : String :=
  let category := performance_category score total
  match oracle with
  | .requestError => get_fallback_phrase category topic
  | .content none => get_fallback_phrase category topic
  | .content (some c) =>
      if c.isEmpty then get_fallback_phrase category topic else c.trim

/-! ## JSON extraction (`trivia_service.py`, `_extract_json_from_content`)

Python string scanning is modelled on `List Char` with the exact call-site
semantics of `str.find`, `str.rfind`, slicing and `str.strip`. -/

/-- The backtick character. -/
def backtick : Char := '\x60'

/-- The opening brace character. -/
def lcurly : Char := '\x7b'

/-- The closing brace character. -/
def rcurly : Char := '\x7d'

/-- The `"```"` fence marker. -/
def tripleFence : List Char := [backtick, backtick, backtick]

/-- The `"```json"` tagged fence marker. -/
def fenceJsonTag : List Char := [backtick, backtick, backtick, 'j', 's', 'o', 'n']

/-- Python `s.find(sub)`: index of the first occurrence of `sub`, `none`
for the source's `-1`. -/
def findSub (sub : List Char) : List Char → Option Nat
  | [] => if sub.isPrefixOf ([] : List Char) then some 0 else none
  | c :: rest =>
    if sub.isPrefixOf (c :: rest) then some 0
    else (findSub sub rest).map (fun n => n + 1)

/-- Python `s.find(sub, start)`. -/
def findSubFrom (sub s : List Char) (start : Nat) : Option Nat :=
  (findSub sub (s.drop start)).map (fun n => n + start)

/-- Python `s.find(c)` for a single character. -/
def findChar (c : Char) : List Char → Option Nat
  | [] => none
  | x :: rest => if x = c then some 0 else (findChar c rest).map (fun n => n + 1)

/-- Python `s.rfind(c)` for a single character: index of the last
occurrence. -/
def rfindChar (c : Char) : List Char → Option Nat
  | [] => none
  | x :: rest =>
    match rfindChar c rest with
    | some i => some (i + 1)
    | none => if x = c then some 0 else none

/-- Python `s[a:b]` at the call sites of the extractor, where always
`0 ≤ a ≤ b ≤ len(s)`. -/
def sliceList (s : List Char) (a b : Nat) : List Char :=
  (s.drop a).take (b - a)

/-- Python `c.isspace()` over ASCII, the strip set of `str.strip()`. -/
def pyIsSpace (c : Char) : Bool :=
  c = ' ' || c = '\t' || c = '\n' || c = '\r' || c = '\x0b' || c = '\x0c'

/-- Python `s.strip()`. -/
def pyStrip (s : List Char) : List Char :=
  ((s.dropWhile pyIsSpace).reverse.dropWhile pyIsSpace).reverse

/-- `TriviaService._extract_json_from_content` (lines 245-276): first strip
the first matching (optionally `json`-tagged) fence pair, then narrow to
the substring from the first `\x7b` to the last `\x7d` when both exist in
that order, and strip surrounding whitespace. -/
def extract_json_from_content (content : List Char) : List Char :=
  let content1 :=
    match findSub fenceJsonTag content with
    | some s0 =>
      match findSubFrom tripleFence content (s0 + 7) with
      | some e => pyStrip (sliceList content (s0 + 7) e)
      | none => content
    | none =>
      match findSub tripleFence content with
      | some s0 =>
        match findSubFrom tripleFence content (s0 + 3) with
        | some e => pyStrip (sliceList content (s0 + 3) e)
        | none => content
      | none => content
  let content2 :=
    match findChar lcurly content1, rfindChar rcurly content1 with
    | some si, some ei => if si < ei then sliceList content1 si (ei + 1) else content1
    | _, _ => content1
  pyStrip content2

/-! ## Quiz registry and attempt store (`persistence_service.py`) -/

/-- The in-memory `_quizzes` dict, `quiz_id -> (questions, topic)`,
modelled extensionally as a partial map. -/
abbrev QuizStore := String → Option (List Question × String)

/-- The empty registry (`self._quizzes = {}` in `__init__`). -/
def empty_quizzes : QuizStore := fun _ => none

/-- `PersistenceService.store_quiz`: dict insertion/overwrite. -/
def store_quiz (st : QuizStore) (quiz_id : String) (questions : List Question)
    (topic : String) : QuizStore :=
  fun k => if k == quiz_id then some (questions, topic) else st k

/-- `PersistenceService.get_quiz`: `dict.get`, `none` for a missing key. -/
def get_quiz (st : QuizStore) (quiz_id : String) : Option (List Question × String) :=
  st quiz_id

/-- A sequence of `store_quiz` calls under freshly generated ids
(`generate_quiz_id` returns a random UUID string; the id is a parameter
here), applied left to right to the empty registry. -/
def run_creates (creates : List (String × List Question × String)) : QuizStore :=
  creates.foldl (fun st c => store_quiz st c.1 c.2.1 c.2.2) empty_quizzes

/-- The in-memory `_attempts` dict, `user_name -> List[QuizAttempt]`,
modelled as an insertion-ordered association list (Python dicts preserve
insertion order, which `get_all_attempts` iterates). -/
abbrev AttemptStore := List (String × List QuizAttempt)

/-- `PersistenceService.save_attempt` (file persistence omitted; it never
changes the in-memory state): append the new attempt, stamped `now`, to the
user's list, creating the entry at the end of the dict when absent. -/
def save_attempt (st : AttemptStore) (user_name quiz_topic : String)
    (score total now : Nat) : AttemptStore :=
  let attempt : QuizAttempt :=
    { user_name := user_name, quiz_topic := quiz_topic, score := score,
      total := total, timestamp := now }
  if st.any (fun p => p.1 == user_name) then
    st.map (fun p => if p.1 == user_name then (p.1, p.2 ++ [attempt]) else p)
  else
    st ++ [(user_name, [attempt])]

/-- `PersistenceService.get_user_attempts`: `self._attempts.get(user_name, [])`,
the stored list as is. -/
def get_user_attempts (st : AttemptStore) (user_name : String) : List QuizAttempt :=
  (((st.find? (fun p => p.1 == user_name)).map (fun p => p.2)).getD [])

/-- Comparator of the source's `all_attempts.sort(key=lambda x: x.timestamp,
reverse=True)`: `a` may precede `b` iff `a.timestamp ≥ b.timestamp`; merge
sort with this relation is the stable descending sort CPython performs. -/
def attemptLe (a b : QuizAttempt) : Bool :=
  b.timestamp ≤ a.timestamp

/-- `PersistenceService.get_all_attempts`: concatenate the per-user lists in
dict order, then sort by timestamp, newest first. -/
def get_all_attempts (st : AttemptStore) : List QuizAttempt :=
  (st.flatMap (fun p => p.2)).mergeSort attemptLe

/-! ## Submission flow (`main.py`, `submit_quiz`) -/

/-- Failure modes of the `/api/submit-quiz` handler on the scoring path. -/
inductive SubmitError where
  | notFound
  | lengthMismatch (expected got : Nat)
  | internal (msg : String)
deriving DecidableEq

/-- The scoring path of `submit_quiz` in `main.py` (lines 111-127): look the
quiz up (404 when missing), reject on answer-count mismatch (400, before
`calculate_score` is invoked), then score.  The performance phrase and the
attempt persistence that follow do not affect the returned score/results
and are omitted. -/
def submit_quiz (st : QuizStore) (quiz_id : String) (answers : List String) :
    Except SubmitError (Nat × List QuestionResult) :=
  match get_quiz st quiz_id with
  | none => .error .notFound
  | some (questions, _) =>
    if answers.length ≠ questions.length then
      .error (.lengthMismatch questions.length answers.length)
    else
      match calculate_score questions answers with
      | .error e => .error (.internal e)
      | .ok r => .ok r

/-! ## Payload builders and concrete fixtures -/

/-- The field list of a question object in the canonical generator shape
(the three expected fields, in the order of the prompt's template). -/
def mkFields (q o c : JsonVal) : List (String × JsonVal) :=
  [("question", q), ("options", o), ("correct_answer", c)]

/-- A question object whose three fields are all strings. -/
def mkQuestionObj (text : String) (opts : List String) (correct : String) : JsonVal :=
  .obj (mkFields (.str text) (.arr (opts.map JsonVal.str)) (.str correct))

/-- A raw quiz payload in the canonical generator shape, one entry per
question as `(text, options, correct_answer)`. -/
def mkQuizPayload (specs : List (String × List String × String)) : JsonVal :=
  .obj [("questions", .arr (specs.map (fun s => mkQuestionObj s.1 s.2.1 s.2.2)))]

/-- The `Question` a canonical entry validates to. -/
def specToQuestion (s : String × List String × String) : Question :=
  { question := s.1, options := s.2.1, correct_answer := s.2.2 }

/-- A well-formed sample question object. -/
def validQuestionObj : JsonVal := mkQuestionObj "Q?" ["A", "B", "C", "D"] "A"

/-- A question object with duplicated options, accepted by the validator. -/
def dupQuestionObj : JsonVal := mkQuestionObj "Q?" ["A", "A", "B", "C"] "A"

/-- A 10-question payload whose every question has duplicated options. -/
def dupPayload : JsonVal := .obj [("questions", .arr (List.replicate 10 dupQuestionObj))]

/-- A question object whose options are the JSON numbers 1..4 while
`correct_answer` is the JSON string `"1"`. -/
def numOptionsObj : JsonVal :=
  .obj (mkFields (.str "Q?") (.arr [.num 1, .num 2, .num 3, .num 4]) (.str "1"))

/-- The `Question` that `validQuestionObj` validates to. -/
def validQuestion : Question :=
  { question := "Q?", options := ["A", "B", "C", "D"], correct_answer := "A" }

/-- A question object whose raw `correct_answer` is the dict
`{"a": 1, "b": 2}` while the first option is the same dict with the
keys in the other insertion order: Python `==` (and `jsonEq`) counts them
equal, so the membership check passes, yet `str` renders them differently. -/
def dictReorderObj : JsonVal :=
  .obj (mkFields (.str "Q?")
    (.arr [.obj [("b", .num 2), ("a", .num 1)], .str "x", .str "y", .str "z"])
    (.obj [("a", .num 1), ("b", .num 2)]))

/-- A 10-question payload led by `dictReorderObj`. -/
def dictReorderPayload : JsonVal :=
  .obj [("questions", .arr (dictReorderObj :: List.replicate 9 validQuestionObj))]

/-- The `Question` that `dictReorderObj` validates to: its coerced
`correct_answer` string is not among its coerced options, because the two
`jsonEq`-equal dicts render to different strings. -/
def reorderedQuestion : Question :=
  { question := "Q?",
    options := [pyStr (.obj [("b", .num 2), ("a", .num 1)]), "x", "y", "z"],
    correct_answer := pyStr (.obj [("a", .num 1), ("b", .num 2)]) }

/-- Two attempts for user `"u"` recorded at timestamps 1 then 2. -/
def twoAttemptStore : AttemptStore :=
  save_attempt (save_attempt [] "u" "topic" 1 10 1) "u" "topic" 2 10 2

/-! ## Helper lemmas -/

theorem scoreLoop_eq (qs : List Question) (ans : List String) :
    scoreLoop qs ans =
      ((qs.zip ans).countP (fun p => p.2 == p.1.correct_answer),
       (qs.zip ans).map (fun p =>
         { question := p.1.question, selected := p.2, correct := p.1.correct_answer,
           is_correct := p.2 == p.1.correct_answer })) := by
  induction qs generalizing ans with
  | nil => cases ans <;> simp [scoreLoop]
  | cons q qs ih =>
    cases ans with
    | nil => simp [scoreLoop]
    | cons a rest =>
      cases h : (a == q.correct_answer) <;>
        simp [scoreLoop, ih, List.countP_cons, h] <;> omega

theorem get_quiz_foldl (creates : List (String × List Question × String))
    (st : QuizStore) (quiz_id : String) (h : ∀ c ∈ creates, c.1 ≠ quiz_id) :
    get_quiz (creates.foldl (fun acc c => store_quiz acc c.1 c.2.1 c.2.2) st) quiz_id =
      get_quiz st quiz_id := by
  induction creates generalizing st with
  | nil => rfl
  | cons c rest ih =>
    rw [List.foldl_cons, ih _ (fun d hd => h d (List.mem_cons_of_mem c hd))]
    have hc : (quiz_id == c.1) = false := by
      have := h c (List.mem_cons_self c rest)
      simp [beq_eq_false_iff_ne]
      exact fun hq => this hq.symm
    simp [get_quiz, store_quiz, hc]

/-! ## Claim theorems -/

/-- C1: for question and answer lists of equal length, `calculate_score`
returns the number of indices where the answer equals the recorded correct
answer under exact string equality, together with a result list that keeps
question order and carries, at each index, the question text, the selected
answer, the correct answer, and `is_correct` true exactly on equality; when
every answer matches the score is the question count (10 for a full quiz),
and when none matches it is 0. -/
theorem calculate_score_spec (questions : List Question) (answers : List String)
    (h : questions.length = answers.length) :
    calculate_score questions answers =
      .ok ((questions.zip answers).countP (fun p => p.2 == p.1.correct_answer),
           (questions.zip answers).map (fun p =>
             { question := p.1.question, selected := p.2, correct := p.1.correct_answer,
               is_correct := p.2 == p.1.correct_answer })) ∧
    (∀ i, ∀ hi : i < questions.length, ∀ hia : i < answers.length,
       ((questions.zip answers).map (fun p =>
           ({ question := p.1.question, selected := p.2, correct := p.1.correct_answer,
              is_correct := p.2 == p.1.correct_answer } : QuestionResult)))[i]? =
         some { question := questions[i].question, selected := answers[i],
                correct := questions[i].correct_answer,
                is_correct := answers[i] == questions[i].correct_answer }) ∧
    ((∀ p ∈ questions.zip answers, p.2 = p.1.correct_answer) →
       (questions.zip answers).countP (fun p => p.2 == p.1.correct_answer) =
         questions.length) ∧
    ((∀ p ∈ questions.zip answers, p.2 ≠ p.1.correct_answer) →
       (questions.zip answers).countP (fun p => p.2 == p.1.correct_answer) = 0) := by
  refine ⟨by simp [calculate_score, h, scoreLoop_eq], ?_, ?_, ?_⟩
  · intro i hi hia
    have hm : i < ((questions.zip answers).map (fun p =>
        ({ question := p.1.question, selected := p.2, correct := p.1.correct_answer,
           is_correct := p.2 == p.1.correct_answer } : QuestionResult))).length := by
      simp [List.length_zip]; omega
    rw [List.getElem?_eq_getElem hm]
    simp [List.getElem_zip]
  · intro hall
    refine Eq.trans (List.countP_eq_length.mpr ?_) ?_
    · intro p hp
      simpa using hall p hp
    · simp [List.length_zip]; omega
  · intro hnone
    rw [List.countP_eq_zero.mpr ?_]
    intro p hp
    simpa using hnone p hp

theorem calculate_score_spec_witness :
    ([({ question := "q1", options := ["A", "B", "C", "D"], correct_answer := "A" } :
        Question)].length = (["A"] : List String).length) ∧
    (calculate_score
        [{ question := "q1", options := ["A", "B", "C", "D"], correct_answer := "A" }]
        ["A"] =
      .ok (1, [{ question := "q1", selected := "A", correct := "A", is_correct := true }])) :=
  ⟨rfl, by
    have h := (calculate_score_spec
      [{ question := "q1", options := ["A", "B", "C", "D"], correct_answer := "A" }]
      ["A"] rfl).1
    simpa using h⟩

/-- C2: `calculate_score` rejects any answer list whose length differs from
the question list with the `ValueError` message of the source, producing no
score and no partial result list; and the `/api/submit-quiz` handler makes
the same count check itself and rejects before `calculate_score` is ever
invoked. -/
theorem length_mismatch_spec :
    (∀ (questions : List Question) (answers : List String),
        questions.length ≠ answers.length →
        calculate_score questions answers =
          .error "Number of questions and answers must match") ∧
    (∀ (st : QuizStore) (quiz_id : String) (answers : List String)
        (questions : List Question) (topic : String),
        get_quiz st quiz_id = some (questions, topic) →
        answers.length ≠ questions.length →
        submit_quiz st quiz_id answers =
          .error (.lengthMismatch questions.length answers.length)) := by
  constructor
  · intro questions answers h
    simp [calculate_score, h]
  · intro st quiz_id answers questions topic hget hlen
    simp [submit_quiz, hget, hlen]

theorem length_mismatch_spec_witness :
    calculate_score
        [{ question := "q1", options := ["A", "B", "C", "D"], correct_answer := "A" }]
        ["A", "B"] =
      .error "Number of questions and answers must match" ∧
    submit_quiz
        (store_quiz empty_quizzes "id1"
          [{ question := "q1", options := ["A", "B", "C", "D"], correct_answer := "A" }]
          "topic")
        "id1" ["A", "B"] =
      .error (.lengthMismatch 1 2) :=
  ⟨length_mismatch_spec.1 _ _ (by decide),
   length_mismatch_spec.2
     (store_quiz empty_quizzes "id1"
       [{ question := "q1", options := ["A", "B", "C", "D"], correct_answer := "A" }]
       "topic")
     "id1" ["A", "B"]
     [{ question := "q1", options := ["A", "B", "C", "D"], correct_answer := "A" }]
     "topic" rfl (by decide)⟩

/-- C5: storing a question set in the quiz registry and looking the same
identifier up returns it unchanged, and looking up an identifier that no
`create` ever produced returns `none` (the handler's domain-level
"quiz not found"), not a fault. -/
theorem registry_get_create :
    (∀ (st : QuizStore) (quiz_id : String) (questions : List Question) (topic : String),
        get_quiz (store_quiz st quiz_id questions topic) quiz_id = some (questions, topic)) ∧
    (∀ (creates : List (String × List Question × String)) (quiz_id : String),
        (∀ c ∈ creates, c.1 ≠ quiz_id) →
        get_quiz (run_creates creates) quiz_id = none) := by
  constructor
  · intro st quiz_id questions topic
    simp [get_quiz, store_quiz]
  · intro creates quiz_id h
    rw [run_creates, get_quiz_foldl creates empty_quizzes quiz_id h]
    rfl

theorem registry_get_create_witness :
    get_quiz (store_quiz empty_quizzes "id1"
        [{ question := "q1", options := ["A", "B", "C", "D"], correct_answer := "A" }]
        "topic") "id1" =
      some ([{ question := "q1", options := ["A", "B", "C", "D"], correct_answer := "A" }],
        "topic") ∧
    get_quiz (run_creates [("id1", [], "topic")]) "other" = none :=
  ⟨registry_get_create.1 _ _ _ _,
   registry_get_create.2 [("id1", [], "topic")] "other" (by decide)⟩

/-- C8: `generate_performance_phrase` classifies every score into exactly
one of the four bands of the source (`Amazing` when score = total, `Decent`
when score ≥ 6, `Poor` when score ≥ 3, `Abysmal` otherwise), and whenever
the external call raises or returns empty/absent content it returns the
fixed per-band fallback template interpolating the topic — it is a total
function and never propagates a failure into the submission flow. -/
theorem performance_phrase_spec (topic : String) (score total : Nat) :
    (score = total → performance_category score total = "Amazing") ∧
    (score ≠ total → 6 ≤ score → performance_category score total = "Decent") ∧
    (score ≠ total → score < 6 → 3 ≤ score → performance_category score total = "Poor") ∧
    (score ≠ total → score < 3 → performance_category score total = "Abysmal") ∧
    (∀ oracle : PhraseOutcome,
        (oracle = .requestError ∨ oracle = .content none ∨ oracle = .content (some "")) →
        generate_performance_phrase oracle topic score total =
          get_fallback_phrase (performance_category score total) topic) ∧
    get_fallback_phrase "Amazing" topic = "Outstanding knowledge of " ++ topic ++ "!" ∧
    get_fallback_phrase "Decent" topic = "Not bad! You know your " ++ topic ++ "." ∧
    get_fallback_phrase "Poor" topic = "Time to rewatch " ++ topic ++ "!" ∧
    get_fallback_phrase "Abysmal" topic = "You might want to brush up on " ++ topic ++ "." := by
  refine ⟨?_, ?_, ?_, ?_, ?_, rfl, rfl, rfl, rfl⟩
  · intro he
    simp [performance_category, he]
  · intro hne h6
    rw [performance_category, if_neg (by simpa using hne), if_pos (by simpa using h6)]
  · intro hne h6 h3
    rw [performance_category, if_neg (by simpa using hne),
      if_neg (by simpa using Nat.not_le.mpr h6), if_pos (by simpa using h3)]
  · intro hne h3
    rw [performance_category, if_neg (by simpa using hne),
      if_neg (by simpa using Nat.not_le.mpr (by omega : score < 6)),
      if_neg (by simpa using Nat.not_le.mpr h3)]
  · intro oracle ho
    rcases ho with h | h | h <;> subst h <;>
      simp [generate_performance_phrase, String.isEmpty]

theorem performance_phrase_spec_witness :
    generate_performance_phrase .requestError "The Office" 4 10 =
      "Time to rewatch The Office!" := by
  rw [(performance_phrase_spec "The Office" 4 10).2.2.2.2.1
    PhraseOutcome.requestError (Or.inl rfl)]
  rfl

/-! ## JSON equality lemmas -/

theorem jsonMem_str (c : String) (opts : List String) (h : c ∈ opts) :
    jsonMem (.str c) (opts.map JsonVal.str) = true := by
  simp only [jsonMem, List.any_eq_true]
  exact ⟨.str c, List.mem_map_of_mem _ h, by simp [jsonEq]⟩

/-! ## Validator lemmas -/

theorem dictGet_mkFields_question (q o c : JsonVal) :
    dictGet (mkFields q o c) "question" = some q := rfl

theorem dictGet_mkFields_options (q o c : JsonVal) :
    dictGet (mkFields q o c) "options" = some o := rfl

theorem dictGet_mkFields_correct (q o c : JsonVal) :
    dictGet (mkFields q o c) "correct_answer" = some c := rfl

theorem pyStr_str (s : String) : pyStr (.str s) = s := rfl

theorem validateQuestion_mk (i : Nat) (t : String) (opts : List String) (c : String)
    (h4 : opts.length = 4) (hm : c ∈ opts) :
    validateQuestion i (mkQuestionObj t opts c) = .ok (specToQuestion (t, opts, c)) := by
  simp only [mkQuestionObj, validateQuestion, dictGet_mkFields_question,
    dictGet_mkFields_options, dictGet_mkFields_correct]
  simp [h4, jsonMem_str c opts hm, specToQuestion, List.map_map, Function.comp_def, pyStr]

theorem validateQuestion_ok_intro (i : Nat) (fields : List (String × JsonVal))
    (qf cf : JsonVal) (opts : List JsonVal)
    (hq : dictGet fields "question" = some qf)
    (ho : dictGet fields "options" = some (.arr opts))
    (hc : dictGet fields "correct_answer" = some cf)
    (h4 : opts.length = 4) (hm : jsonMem cf opts = true) :
    validateQuestion i (.obj fields) =
      .ok { question := pyStr qf, options := opts.map pyStr,
            correct_answer := pyStr cf } := by
  simp [validateQuestion, hq, ho, hc, h4, hm]

theorem validateQuestion_ok_elim (i : Nat) (q : JsonVal) (v : Question)
    (h : validateQuestion i q = .ok v) :
    ∃ fields qf cf opts, q = .obj fields ∧ dictGet fields "question" = some qf ∧
      dictGet fields "options" = some (.arr opts) ∧
      dictGet fields "correct_answer" = some cf ∧ opts.length = 4 ∧
      jsonMem cf opts = true ∧
      v = { question := pyStr qf, options := opts.map pyStr,
            correct_answer := pyStr cf } := by
  cases q with
  | obj fields =>
    simp only [validateQuestion] at h
    cases hq : dictGet fields "question" with
    | none => rw [hq] at h; simp at h
    | some qf =>
      rw [hq] at h
      cases ho : dictGet fields "options" with
      | none => rw [ho] at h; simp at h
      | some optf =>
        rw [ho] at h
        cases hc : dictGet fields "correct_answer" with
        | none => rw [hc] at h; simp at h
        | some cf =>
          rw [hc] at h
          cases optf with
          | arr opts =>
            by_cases h4 : opts.length = 4
            · by_cases hm : jsonMem cf opts = true
              · refine ⟨fields, qf, cf, opts, rfl, hq, ho, hc, h4, hm, ?_⟩
                have := h
                simp only [h4, hm] at this
                simpa using this.symm
              · simp [h4, hm] at h
            · simp [h4] at h
          | str s => simp at h
          | num n => simp at h
          | bool b => simp at h
          | null => simp at h
          | obj f2 => simp at h
  | str s => simp [validateQuestion] at h
  | num n => simp [validateQuestion] at h
  | bool b => simp [validateQuestion] at h
  | null => simp [validateQuestion] at h
  | arr xs => simp [validateQuestion] at h

theorem validateQuestion_index_free (i j : Nat) (q : JsonVal) (v : Question)
    (h : validateQuestion i q = .ok v) : validateQuestion j q = .ok v := by
  obtain ⟨fields, qf, cf, opts, rfl, hq, ho, hc, h4, hm, rfl⟩ :=
    validateQuestion_ok_elim i q v h
  exact validateQuestion_ok_intro j fields qf cf opts hq ho hc h4 hm

theorem validateQuestion_ok_invariant (i : Nat) (qd : JsonVal) (v : Question)
    (h : validateQuestion i qd = .ok v) : v.options.length = 4 := by
  obtain ⟨fields, qf, cf, opts, rfl, hq, ho, hc, h4, hm, rfl⟩ :=
    validateQuestion_ok_elim i qd v h
  simpa using h4

theorem validateQuestion_err_missing_question (i : Nat) (fields : List (String × JsonVal))
    (hq : dictGet fields "question" = none) :
    validateQuestion i (.obj fields) =
      .error ("Question " ++ toString (i + 1) ++ " missing \x27question\x27 field") := by
  simp [validateQuestion, hq]

theorem validateQuestion_err_missing_options (i : Nat) (fields : List (String × JsonVal))
    (qf : JsonVal) (hq : dictGet fields "question" = some qf)
    (ho : dictGet fields "options" = none) :
    validateQuestion i (.obj fields) =
      .error ("Question " ++ toString (i + 1) ++ " missing \x27options\x27 field") := by
  simp [validateQuestion, hq, ho]

theorem validateQuestion_err_missing_correct (i : Nat) (fields : List (String × JsonVal))
    (qf optf : JsonVal) (hq : dictGet fields "question" = some qf)
    (ho : dictGet fields "options" = some optf)
    (hc : dictGet fields "correct_answer" = none) :
    validateQuestion i (.obj fields) =
      .error ("Question " ++ toString (i + 1) ++ " missing \x27correct_answer\x27 field") := by
  simp [validateQuestion, hq, ho, hc]

theorem validateQuestion_err_count (i : Nat) (fields : List (String × JsonVal))
    (qf cf : JsonVal) (opts : List JsonVal) (hq : dictGet fields "question" = some qf)
    (ho : dictGet fields "options" = some (.arr opts))
    (hc : dictGet fields "correct_answer" = some cf)
    (h4 : opts.length ≠ 4) :
    validateQuestion i (.obj fields) =
      .error ("Question " ++ toString (i + 1) ++ " must have exactly 4 options, got "
        ++ toString opts.length) := by
  simp [validateQuestion, hq, ho, hc, h4]

theorem validateQuestion_err_membership (i : Nat) (fields : List (String × JsonVal))
    (qf cf : JsonVal) (opts : List JsonVal) (hq : dictGet fields "question" = some qf)
    (ho : dictGet fields "options" = some (.arr opts))
    (hc : dictGet fields "correct_answer" = some cf)
    (h4 : opts.length = 4) (hmem : jsonMem cf opts = false) :
    validateQuestion i (.obj fields) =
      .error ("Question " ++ toString (i + 1)
        ++ " \x27correct_answer\x27 must be one of the options") := by
  simp [validateQuestion, hq, ho, hc, h4, hmem]

theorem validateQuestions_ok_length : ∀ (i : Nat) (l : List JsonVal) (qs : List Question),
    validateQuestions i l = .ok qs → qs.length = l.length
  | _, [], qs, h => by
      simp only [validateQuestions] at h
      cases h
      rfl
  | i, q :: rest, qs, h => by
      simp only [validateQuestions] at h
      cases hv : validateQuestion i q with
      | error e => rw [hv] at h; simp at h
      | ok v =>
        rw [hv] at h
        cases hr : validateQuestions (i + 1) rest with
        | error e => rw [hr] at h; simp at h
        | ok vs =>
          rw [hr] at h
          cases h
          simpa using validateQuestions_ok_length (i + 1) rest vs hr

theorem validateQuestions_ok_invariant : ∀ (i : Nat) (l : List JsonVal) (qs : List Question),
    validateQuestions i l = .ok qs →
    ∀ q ∈ qs, q.options.length = 4
  | _, [], qs, h => by
      simp only [validateQuestions] at h
      cases h
      intro q hq
      simp at hq
  | i, q0 :: rest, qs, h => by
      simp only [validateQuestions] at h
      cases hv : validateQuestion i q0 with
      | error e => rw [hv] at h; simp at h
      | ok v =>
        rw [hv] at h
        cases hr : validateQuestions (i + 1) rest with
        | error e => rw [hr] at h; simp at h
        | ok vs =>
          rw [hr] at h
          cases h
          intro q hq
          rcases List.mem_cons.mp hq with hq | hq
          · exact hq ▸ validateQuestion_ok_invariant i q0 v hv
          · exact validateQuestions_ok_invariant (i + 1) rest vs hr q hq

theorem validateQuestions_append_error (good : List JsonVal) (i : Nat) (bad : JsonVal)
    (rest : List JsonVal) (e : String)
    (hgood : ∀ q ∈ good, ∃ v, validateQuestion 0 q = .ok v)
    (hbad : validateQuestion (i + good.length) bad = .error e) :
    validateQuestions i (good ++ bad :: rest) =
      .error (wrapQuestionError (i + good.length) e) := by
  induction good generalizing i with
  | nil =>
    simp only [List.length_nil, Nat.add_zero] at hbad ⊢
    simp only [List.nil_append, validateQuestions, hbad]
  | cons g gs ih =>
    obtain ⟨v, hv⟩ := hgood g (List.mem_cons_self g gs)
    have hv' : validateQuestion i g = .ok v := validateQuestion_index_free 0 i g v hv
    have harith : i + (g :: gs).length = (i + 1) + gs.length := by
      simp [List.length_cons]; omega
    rw [harith] at hbad
    have hrec := ih (i + 1) (fun q hq => hgood q (List.mem_cons_of_mem g hq)) hbad
    simp only [List.cons_append, validateQuestions, hv', List.append_eq, hrec, harith]

theorem validateQuestions_mk : ∀ (i : Nat) (specs : List (String × List String × String)),
    (∀ s ∈ specs, s.2.1.length = 4) → (∀ s ∈ specs, s.2.2 ∈ s.2.1) →
    validateQuestions i (specs.map (fun s => mkQuestionObj s.1 s.2.1 s.2.2)) =
      .ok (specs.map specToQuestion)
  | _, [], _, _ => rfl
  | i, s :: rest, h4, hm => by
      have hv := validateQuestion_mk i s.1 s.2.1 s.2.2
        (h4 s (List.mem_cons_self s rest)) (hm s (List.mem_cons_self s rest))
      have hr := validateQuestions_mk (i + 1) rest
        (fun x hx => h4 x (List.mem_cons_of_mem s hx))
        (fun x hx => hm x (List.mem_cons_of_mem s hx))
      simp only [List.map_cons, validateQuestions, hv, hr]

theorem parse_payload (l : List JsonVal) :
    parse_and_validate_response (.obj [("questions", .arr l)]) =
      if l.length ≠ 10 then
        .error ("Expected exactly 10 questions, got " ++ toString l.length)
      else validateQuestions 0 l := rfl

theorem parse_ok_inv (data : JsonVal) (qs : List Question)
    (h : parse_and_validate_response data = .ok qs) :
    ∃ fields l, data = .obj fields ∧ dictGet fields "questions" = some (.arr l) ∧
      l.length = 10 ∧ validateQuestions 0 l = .ok qs := by
  cases data with
  | obj fields =>
    simp only [parse_and_validate_response] at h
    cases hget : dictGet fields "questions" with
    | none => rw [hget] at h; simp at h
    | some v =>
      rw [hget] at h
      cases v with
      | arr l =>
        by_cases hl : l.length ≠ 10
        · simp [hl] at h
        · refine ⟨fields, l, rfl, hget, by omega, ?_⟩
          simpa [hl] using h
      | str s => simp at h
      | num n => simp at h
      | bool b => simp at h
      | null => simp at h
      | obj f2 => simp at h
  | str s => simp [parse_and_validate_response] at h
  | num n => simp [parse_and_validate_response] at h
  | bool b => simp [parse_and_validate_response] at h
  | null => simp [parse_and_validate_response] at h
  | arr xs => simp [parse_and_validate_response] at h

/-- C3: every raw payload already in valid `QuestionSet` shape — a
`questions` array of exactly 10 question objects, each with a string
question text, exactly 4 string options, and a `correct_answer` string that
is one of those options — passes `_parse_and_validate_response`, which
returns the questions unchanged in content and in order (the defensive
`str` coercions are the identity on strings). -/
theorem validate_accepts_valid_sets (specs : List (String × List String × String))
    (hlen : specs.length = 10)
    (h4 : ∀ s ∈ specs, s.2.1.length = 4)
    (hm : ∀ s ∈ specs, s.2.2 ∈ s.2.1) :
    parse_and_validate_response (mkQuizPayload specs) =
      .ok (specs.map specToQuestion) := by
  unfold mkQuizPayload
  rw [parse_payload]
  simp [hlen, validateQuestions_mk 0 specs h4 hm]

theorem validate_accepts_valid_sets_witness :
    parse_and_validate_response
        (mkQuizPayload (List.replicate 10 ("Q?", ["A", "B", "C", "D"], "A"))) =
      .ok (List.replicate 10
        { question := "Q?", options := ["A", "B", "C", "D"], correct_answer := "A" }) := by
  have h := validate_accepts_valid_sets (List.replicate 10 ("Q?", ["A", "B", "C", "D"], "A"))
    (by simp)
    (fun s hs => by rw [List.eq_of_mem_replicate hs]; rfl)
    (fun s hs => by rw [List.eq_of_mem_replicate hs]; simp)
  simpa [specToQuestion] using h

/-- C4: the validator is all-or-nothing.  A `questions` array whose length
is not 10 is rejected with the count-specific message before any question is
examined; when the questions before index `k` pass and question `k` fails a
check, the whole validation fails with the error of that check, carrying the
1-based index `k+1`; the per-question checks fire in the source order
(missing `question`, missing `options`, missing `correct_answer`, option
count, membership of `correct_answer`); and a successful validation always
returns exactly 10 questions, never a partial set. -/
theorem validate_all_or_nothing :
    (∀ qs : List JsonVal, qs.length ≠ 10 →
        parse_and_validate_response (.obj [("questions", .arr qs)]) =
          .error ("Expected exactly 10 questions, got " ++ toString qs.length)) ∧
    (∀ (good : List JsonVal) (bad : JsonVal) (rest : List JsonVal) (e : String),
        (good ++ bad :: rest).length = 10 →
        (∀ q ∈ good, ∃ v, validateQuestion 0 q = .ok v) →
        validateQuestion good.length bad = .error e →
        parse_and_validate_response (.obj [("questions", .arr (good ++ bad :: rest))]) =
          .error (wrapQuestionError good.length e)) ∧
    (∀ (i : Nat) (fields : List (String × JsonVal)),
        dictGet fields "question" = none →
        validateQuestion i (.obj fields) =
          .error ("Question " ++ toString (i + 1) ++ " missing \x27question\x27 field")) ∧
    (∀ (i : Nat) (fields : List (String × JsonVal)) (qf : JsonVal),
        dictGet fields "question" = some qf →
        dictGet fields "options" = none →
        validateQuestion i (.obj fields) =
          .error ("Question " ++ toString (i + 1) ++ " missing \x27options\x27 field")) ∧
    (∀ (i : Nat) (fields : List (String × JsonVal)) (qf optf : JsonVal),
        dictGet fields "question" = some qf →
        dictGet fields "options" = some optf →
        dictGet fields "correct_answer" = none →
        validateQuestion i (.obj fields) =
          .error ("Question " ++ toString (i + 1) ++ " missing \x27correct_answer\x27 field")) ∧
    (∀ (i : Nat) (fields : List (String × JsonVal)) (qf cf : JsonVal) (opts : List JsonVal),
        dictGet fields "question" = some qf →
        dictGet fields "options" = some (.arr opts) →
        dictGet fields "correct_answer" = some cf →
        opts.length ≠ 4 →
        validateQuestion i (.obj fields) =
          .error ("Question " ++ toString (i + 1) ++ " must have exactly 4 options, got "
            ++ toString opts.length)) ∧
    (∀ (i : Nat) (fields : List (String × JsonVal)) (qf cf : JsonVal) (opts : List JsonVal),
        dictGet fields "question" = some qf →
        dictGet fields "options" = some (.arr opts) →
        dictGet fields "correct_answer" = some cf →
        opts.length = 4 →
        jsonMem cf opts = false →
        validateQuestion i (.obj fields) =
          .error ("Question " ++ toString (i + 1)
            ++ " \x27correct_answer\x27 must be one of the options")) ∧
    (∀ (data : JsonVal) (qs : List Question),
        parse_and_validate_response data = .ok qs → qs.length = 10) := by
  refine ⟨?_, ?_, validateQuestion_err_missing_question,
    validateQuestion_err_missing_options, validateQuestion_err_missing_correct,
    validateQuestion_err_count, validateQuestion_err_membership, ?_⟩
  · intro qs hn
    rw [parse_payload]
    simp [hn]
  · intro good bad rest e hlen hgood hbad
    rw [parse_payload]
    have h0 := validateQuestions_append_error good 0 bad rest e hgood
      (by simpa using hbad)
    simp only [hlen]
    simpa using h0
  · intro data qs h
    obtain ⟨fields, l, _, _, hlen, hv⟩ := parse_ok_inv data qs h
    rw [validateQuestions_ok_length 0 l qs hv, hlen]

theorem validate_all_or_nothing_witness :
    parse_and_validate_response
        (.obj [("questions", .arr (List.replicate 9 validQuestionObj))]) =
      .error "Expected exactly 10 questions, got 9" ∧
    parse_and_validate_response
        (.obj [("questions", .arr (List.replicate 3 validQuestionObj ++
          JsonVal.obj [("question", .str "Q?")] :: List.replicate 6 validQuestionObj))]) =
      .error "Error validating question 4: Question 4 missing \x27options\x27 field" := by
  constructor
  · exact validate_all_or_nothing.1 (List.replicate 9 validQuestionObj) (by simp)
  · exact validate_all_or_nothing.2.1 (List.replicate 3 validQuestionObj)
      (JsonVal.obj [("question", .str "Q?")]) (List.replicate 6 validQuestionObj)
      "Question 4 missing \x27options\x27 field" (by simp)
      (fun q hq => ⟨⟨"Q?", ["A", "B", "C", "D"], "A"⟩,
        by rw [List.eq_of_mem_replicate hq]; rfl⟩)
      rfl

/-- C6 counterexample: the claim asserts every validated `Question` has
*unique* options, but `_parse_and_validate_response` never checks
uniqueness: a payload whose every question carries the duplicated options
`["A", "A", "B", "C"]` validates successfully, producing `Question`s with
duplicate option strings. -/
theorem validate_allows_duplicate_options :
    parse_and_validate_response dupPayload =
      .ok (List.replicate 10
        { question := "Q?", options := ["A", "A", "B", "C"], correct_answer := "A" }) ∧
    ¬ (∀ q ∈ List.replicate 10 (⟨"Q?", ["A", "A", "B", "C"], "A"⟩ : Question),
        q.options.Nodup) := by
  constructor
  · rfl
  · intro h
    exact absurd (h _ (List.mem_replicate.mpr ⟨by decide, rfl⟩)) (by decide)

/-- C6 (amended): every `Question` produced by successful validation has
exactly 4 options.  The validator checks membership of `correct_answer`
among the options only on the raw JSON values, under Python `==`, so
neither option uniqueness (see the counterexample) nor membership of the
*coerced* `correct_answer` string among the coerced options is guaranteed:
the second conjunct evaluates the validator on a payload whose raw
`correct_answer` is a dict Python-equal to a reordered-key option —
validation succeeds, the two dicts render to different strings, and the
validated `Question` violates `correct_answer ∈ options`. -/
theorem validated_question_invariant :
    (∀ (data : JsonVal) (qs : List Question),
        parse_and_validate_response data = .ok qs →
        ∀ q ∈ qs, q.options.length = 4) ∧
    (parse_and_validate_response dictReorderPayload =
        .ok (reorderedQuestion :: List.replicate 9 validQuestion) ∧
      reorderedQuestion.correct_answer ∉ reorderedQuestion.options) := by
  refine ⟨?_, rfl, by decide⟩
  intro data qs h
  obtain ⟨fields, l, rfl, hget, hlen, hv⟩ := parse_ok_inv data qs h
  exact validateQuestions_ok_invariant 0 l qs hv

theorem validated_question_invariant_witness :
    (⟨"Q?", ["A", "A", "B", "C"], "A"⟩ : Question).options.length = 4 :=
  validated_question_invariant.1 dupPayload
    (List.replicate 10
      { question := "Q?", options := ["A", "A", "B", "C"], correct_answer := "A" })
    rfl (⟨"Q?", ["A", "A", "B", "C"], "A"⟩ : Question)
    (List.mem_replicate.mpr ⟨by decide, rfl⟩)

/-- C10: the membership check `correct_answer not in options` runs on the
raw JSON values, before the `str` coercions.  If the questions before index
`k` are valid and question `k` has a raw `correct_answer` that is not a
member of its raw options array, validation rejects the payload with
question `k`'s indexed membership error — even when, after coercion, the
string rendering of `correct_answer` would be among the coerced options
(hypothesis `hco`), so the coerced `Question` would have satisfied the
membership invariant. -/
theorem membership_checked_before_coercion
    (good : List JsonVal) (rest : List JsonVal) (fields : List (String × JsonVal))
    (qf cf : JsonVal) (opts : List JsonVal)
    (hgood : ∀ q ∈ good, ∃ v, validateQuestion 0 q = .ok v)
    (hlen : (good ++ JsonVal.obj fields :: rest).length = 10)
    (hq : dictGet fields "question" = some qf)
    (ho : dictGet fields "options" = some (.arr opts))
    (hc : dictGet fields "correct_answer" = some cf)
    (h4 : opts.length = 4)
    (hraw : jsonMem cf opts = false)
    (hco : pyStr cf ∈ opts.map pyStr) :
    parse_and_validate_response
        (.obj [("questions", .arr (good ++ JsonVal.obj fields :: rest))]) =
      .error (wrapQuestionError good.length
        ("Question " ++ toString (good.length + 1)
          ++ " \x27correct_answer\x27 must be one of the options")) ∧
    ({ question := pyStr qf, options := opts.map pyStr,
        correct_answer := pyStr cf } : Question).correct_answer ∈
      ({ question := pyStr qf, options := opts.map pyStr,
          correct_answer := pyStr cf } : Question).options := by
  constructor
  · rw [parse_payload]
    have hbad := validateQuestion_err_membership good.length fields qf cf opts hq ho hc h4 hraw
    have h0 := validateQuestions_append_error good 0 (.obj fields) rest _ hgood
      (by simpa using hbad)
    simp only [hlen]
    simpa using h0
  · exact hco

theorem membership_checked_before_coercion_witness :
    parse_and_validate_response
        (.obj [("questions", .arr (numOptionsObj :: List.replicate 9 validQuestionObj))]) =
      .error "Error validating question 1: Question 1 \x27correct_answer\x27 must be one of the options" ∧
    ({ question := "Q?", options := ["1", "2", "3", "4"],
        correct_answer := "1" } : Question).correct_answer ∈
      ({ question := "Q?", options := ["1", "2", "3", "4"],
          correct_answer := "1" } : Question).options :=
  membership_checked_before_coercion [] (List.replicate 9 validQuestionObj)
    (mkFields (.str "Q?") (.arr [.num 1, .num 2, .num 3, .num 4]) (.str "1"))
    (.str "Q?") (.str "1") [.num 1, .num 2, .num 3, .num 4]
    (fun q hq => absurd hq (List.not_mem_nil q))
    rfl rfl rfl rfl rfl rfl (by decide)

/-- C7 counterexample: the claim says the per-user query returns attempts
newest first, but `get_user_attempts` returns the stored list as is, which
`save_attempt` builds in insertion order (oldest first): after recording
attempts at timestamps 1 and then 2 for user `"u"`, the per-user query
returns them oldest first. -/
theorem user_attempts_not_newest_first :
    get_user_attempts twoAttemptStore "u" =
      [⟨"u", "topic", 1, 10, 1⟩, ⟨"u", "topic", 2, 10, 2⟩] ∧
    ¬ List.Pairwise (fun a b : QuizAttempt => b.timestamp ≤ a.timestamp)
        (get_user_attempts twoAttemptStore "u") := by
  constructor
  · rfl
  · intro h
    have he : get_user_attempts twoAttemptStore "u" =
        [⟨"u", "topic", 1, 10, 1⟩, ⟨"u", "topic", 2, 10, 2⟩] := rfl
    rw [he] at h
    have := List.rel_of_pairwise_cons h (List.mem_singleton.mpr rfl)
    simp at this

/-- C7 (amended): the all-users query `get_all_attempts` returns the
recorded attempts sorted by timestamp, newest first (a permutation of all
stored attempts in non-increasing timestamp order), while the per-user
query `get_user_attempts` returns that user's attempts in insertion order —
`save_attempt` appends at the end, so the newest attempt comes last, not
first. -/
theorem attempts_query_order :
    (∀ st : AttemptStore,
        List.Pairwise (fun a b : QuizAttempt => b.timestamp ≤ a.timestamp)
          (get_all_attempts st) ∧
        (get_all_attempts st).Perm (st.flatMap (fun p => p.2))) ∧
    (∀ (st : AttemptStore) (user_name quiz_topic : String) (score total now : Nat),
        get_user_attempts (save_attempt st user_name quiz_topic score total now)
            user_name =
          get_user_attempts st user_name ++
            [⟨user_name, quiz_topic, score, total, now⟩]) := by
  constructor
  · intro st
    constructor
    · have hs := @List.sorted_mergeSort QuizAttempt attemptLe
        (fun a b c hab hbc => by
          simp only [attemptLe, decide_eq_true_eq] at hab hbc ⊢
          omega)
        (fun a b => by
          simp only [attemptLe, Bool.or_eq_true, decide_eq_true_eq]
          omega)
        (st.flatMap (fun p => p.2))
      refine hs.imp ?_
      intro a b hab
      simpa [attemptLe] using hab
    · exact List.mergeSort_perm _ _
  · intro st u topic s t now
    induction st with
    | nil => simp [save_attempt, get_user_attempts]
    | cons p rest ih =>
      obtain ⟨k, v⟩ := p
      by_cases hk : (k == u) = true
      · have hk' := eq_of_beq hk
        subst hk'
        simp [save_attempt, get_user_attempts]
      · simp only [save_attempt, List.any_cons, hk, Bool.false_or] at ih ⊢
        by_cases hr : rest.any (fun p => p.1 == u) = true
        · simp only [hr, if_true, List.map_cons, hk, if_false] at ih ⊢
          simpa [get_user_attempts, List.find?_cons, hk] using ih
        · simp only [hr, if_false, List.cons_append] at ih ⊢
          simpa [get_user_attempts, List.find?_cons, hk] using ih

/-! ## String-scanning lemmas for the JSON extractor -/

theorem isPrefixOf_append_self (l t : List Char) : l.isPrefixOf (l ++ t) = true := by
  rw [List.isPrefixOf_iff_prefix]
  exact List.prefix_append l t

theorem isPrefixOf_self (l : List Char) : l.isPrefixOf l = true := by
  rw [List.isPrefixOf_iff_prefix]

theorem cons_isPrefixOf_elim (a : Char) (xs l : List Char)
    (h : (a :: xs).isPrefixOf l = true) : ∃ t, l = a :: t ∧ xs.isPrefixOf t = true := by
  cases l with
  | nil => simp [List.isPrefixOf] at h
  | cons b t =>
    rw [List.isPrefixOf_iff_prefix, List.cons_prefix_cons] at h
    refine ⟨t, by rw [h.1], ?_⟩
    rw [List.isPrefixOf_iff_prefix]
    exact h.2

theorem not_isPrefixOf_of_lt_length (sub l : List Char) (h : l.length < sub.length) :
    ¬ (sub.isPrefixOf l = true) := by
  intro hp
  rw [List.isPrefixOf_iff_prefix] at hp
  exact absurd hp.length_le (by omega)

theorem not_cons_isPrefixOf_drop (x : Char) (xs a b : List Char) (ha : x ∉ a)
    (j : Nat) (hj : j < a.length) :
    ¬ ((x :: xs).isPrefixOf ((a ++ b).drop j) = true) := by
  intro hpre
  obtain ⟨t, ht, -⟩ := cons_isPrefixOf_elim x xs _ hpre
  have hd : (a ++ b).drop j = a[j] :: (a.drop (j + 1) ++ b) := by
    rw [List.drop_append_of_le_length (Nat.le_of_lt hj)]
    conv_lhs => rw [List.drop_eq_getElem_cons hj]
    rw [List.cons_append]
  rw [hd] at ht
  have hx : a[j] = x := by
    injection ht
  exact ha (hx ▸ List.getElem_mem hj)

theorem findSub_of_prefix (sub s : List Char) (h : sub.isPrefixOf s = true) :
    findSub sub s = some 0 := by
  cases s with
  | nil => simp [findSub, h]
  | cons c rest => simp [findSub, h]

theorem findSub_append_shift (sub a b : List Char)
    (h : ∀ i, i < a.length → ¬ (sub.isPrefixOf ((a ++ b).drop i) = true)) :
    findSub sub (a ++ b) = (findSub sub b).map (fun n => n + a.length) := by
  induction a with
  | nil =>
    simp only [List.nil_append, List.length_nil]
    cases findSub sub b <;> simp
  | cons c a ih =>
    have h0 := h 0 (by simp)
    simp only [List.drop_zero] at h0
    have hrest : ∀ i, i < a.length →
        ¬ (sub.isPrefixOf ((a ++ b).drop i) = true) := by
      intro i hi
      have := h (i + 1) (by simp; omega)
      simpa using this
    simp only [List.cons_append, findSub]
    rw [if_neg (by simpa using h0)]
    simp only [List.append_eq]
    rw [ih hrest]
    cases findSub sub b <;> simp <;> omega

theorem findSub_none_of_forall (sub s : List Char)
    (h : ∀ i, ¬ (sub.isPrefixOf (s.drop i) = true)) : findSub sub s = none := by
  induction s with
  | nil =>
    have h0 := h 0
    simp only [List.drop_zero] at h0
    simp [findSub, h0]
  | cons c rest ih =>
    have h0 := h 0
    simp only [List.drop_zero] at h0
    simp only [findSub]
    rw [if_neg h0, ih (fun i => by simpa using h (i + 1))]
    rfl

theorem findSub_none_of_no_backtick (xs s : List Char) (h : backtick ∉ s) :
    findSub (backtick :: xs) s = none := by
  apply findSub_none_of_forall
  intro i hpre
  obtain ⟨t, ht, -⟩ := cons_isPrefixOf_elim backtick xs _ hpre
  have : backtick ∈ s.drop i := by
    rw [ht]
    exact List.mem_cons_self backtick t
  exact h (List.mem_of_mem_drop this)

theorem rfindChar_none (c : Char) (s : List Char) (h : c ∉ s) : rfindChar c s = none := by
  induction s with
  | nil => rfl
  | cons x rest ih =>
    have hx : ¬ (x = c) := fun he => h (he ▸ List.mem_cons_self x rest)
    simp only [rfindChar, ih (fun hm => h (List.mem_cons_of_mem x hm))]
    simp [hx]

theorem rfindChar_last (c : Char) (u v : List Char) (hv : c ∉ v) :
    rfindChar c (u ++ c :: v) = some u.length := by
  induction u with
  | nil =>
    simp only [List.nil_append, rfindChar, rfindChar_none c v hv]
    simp
  | cons x rest ih =>
    simp only [List.cons_append, rfindChar, List.append_eq]
    rw [ih]
    simp

theorem findChar_first (c : Char) (u v : List Char) (hu : c ∉ u) :
    findChar c (u ++ c :: v) = some u.length := by
  induction u with
  | nil => simp [findChar]
  | cons x rest ih =>
    have hx : ¬ (x = c) := fun he => hu (he ▸ List.mem_cons_self x rest)
    simp only [List.cons_append, findChar, if_neg hx, List.append_eq]
    rw [ih (fun hm => hu (List.mem_cons_of_mem x hm))]
    rfl

theorem pyStrip_braces (x y : Char) (mid : List Char)
    (hx : pyIsSpace x = false) (hy : pyIsSpace y = false) :
    pyStrip (x :: mid ++ [y]) = x :: mid ++ [y] := by
  simp [pyStrip, List.dropWhile_cons, hx, hy, List.reverse_append]

theorem pyStrip_nl_wrap (x y : Char) (mid : List Char)
    (hx : pyIsSpace x = false) (hy : pyIsSpace y = false) :
    pyStrip ('\n' :: (x :: mid ++ [y]) ++ ['\n']) = x :: mid ++ [y] := by
  simp [pyStrip, List.dropWhile_cons, hx, hy, List.reverse_append,
    show pyIsSpace '\n' = true from rfl]

theorem drop7_tag (r : List Char) : (fenceJsonTag ++ r).drop 7 = r := by
  have h7 : (7 : Nat) = fenceJsonTag.length := rfl
  rw [h7, List.drop_left]

theorem drop3_fence (r : List Char) : (tripleFence ++ r).drop 3 = r := by
  have h3 : (3 : Nat) = tripleFence.length := rfl
  rw [h3, List.drop_left]

theorem fence_after_wrapped (a : List Char) (ha : backtick ∉ a) :
    findSub tripleFence (('\n' :: a ++ ['\n']) ++ tripleFence) = some (a.length + 2) := by
  have hcond : ∀ i, i < ('\n' :: a ++ ['\n']).length →
      ¬ (tripleFence.isPrefixOf ((('\n' :: a ++ ['\n']) ++ tripleFence).drop i) = true) := by
    intro i hi
    refine not_cons_isPrefixOf_drop backtick _ _ _ ?_ i hi
    intro hm
    simp at hm
    rcases hm with h | h | h
    · exact absurd h (by decide)
    · exact ha h
    · exact absurd h (by decide)
  rw [findSub_append_shift tripleFence _ _ hcond,
    findSub_of_prefix _ _ (isPrefixOf_self _)]
  simp

theorem narrow_obj (mid : List Char) :
    findChar lcurly (lcurly :: mid ++ [rcurly]) = some 0 ∧
    rfindChar rcurly (lcurly :: mid ++ [rcurly]) = some (mid.length + 1) ∧
    sliceList (lcurly :: mid ++ [rcurly]) 0 (mid.length + 1 + 1) =
      lcurly :: mid ++ [rcurly] ∧
    pyStrip (lcurly :: mid ++ [rcurly]) = lcurly :: mid ++ [rcurly] := by
  refine ⟨by simp [findChar], ?_, ?_, pyStrip_braces lcurly rcurly mid rfl rfl⟩
  · have := rfindChar_last rcurly (lcurly :: mid) [] (by simp)
    simpa using this
  · have hlen : (lcurly :: mid ++ [rcurly]).length = mid.length + 1 + 1 := by simp
    simp only [sliceList, List.drop_zero, Nat.sub_zero]
    rw [← hlen, List.take_length]


theorem extract_tagged (mid : List Char) (hmid : backtick ∉ mid) :
    extract_json_from_content
        (fenceJsonTag ++ ('\n' :: (lcurly :: mid ++ [rcurly]) ++ '\n' :: tripleFence)) =
      lcurly :: mid ++ [rcurly] := by
  have hobj_bt : backtick ∉ (lcurly :: mid ++ [rcurly]) := by
    intro hm
    simp at hm
    rcases hm with h | h | h
    · exact absurd h (by decide)
    · exact hmid h
    · exact absurd h (by decide)
  have hshape : '\n' :: (lcurly :: mid ++ [rcurly]) ++ '\n' :: tripleFence =
      ('\n' :: (lcurly :: mid ++ [rcurly]) ++ ['\n']) ++ tripleFence := by simp
  have h1 : findSub fenceJsonTag
      (fenceJsonTag ++ ('\n' :: (lcurly :: mid ++ [rcurly]) ++ '\n' :: tripleFence)) =
      some 0 := findSub_of_prefix _ _ (isPrefixOf_append_self _ _)
  have h2 : findSubFrom tripleFence
      (fenceJsonTag ++ ('\n' :: (lcurly :: mid ++ [rcurly]) ++ '\n' :: tripleFence)) 7 =
      some (mid.length + 4 + 7) := by
    unfold findSubFrom
    rw [drop7_tag, hshape, fence_after_wrapped _ hobj_bt]
    simp <;> omega
  have h3 : sliceList
      (fenceJsonTag ++ ('\n' :: (lcurly :: mid ++ [rcurly]) ++ '\n' :: tripleFence))
      7 (mid.length + 4 + 7) =
      '\n' :: (lcurly :: mid ++ [rcurly]) ++ ['\n'] := by
    unfold sliceList
    rw [drop7_tag, hshape]
    have harith : mid.length + 4 + 7 - 7 =
        ('\n' :: (lcurly :: mid ++ [rcurly]) ++ ['\n']).length := by
      simp <;> omega
    rw [harith, List.take_left]
  have h4 : pyStrip ('\n' :: (lcurly :: mid ++ [rcurly]) ++ ['\n']) =
      lcurly :: mid ++ [rcurly] := pyStrip_nl_wrap lcurly rcurly mid rfl rfl
  have hn := narrow_obj mid
  have hlt : 0 < mid.length + 1 := Nat.succ_pos _
  simp only [extract_json_from_content, h1, Nat.zero_add, h2, h3, h4,
    hn.1, hn.2.1, hn.2.2.1, hn.2.2.2, hlt, if_true]

theorem extract_untagged (mid : List Char) (hmid : backtick ∉ mid) :
    extract_json_from_content
        (tripleFence ++ ('\n' :: (lcurly :: mid ++ [rcurly]) ++ '\n' :: tripleFence)) =
      lcurly :: mid ++ [rcurly] := by
  have hobj_bt : backtick ∉ (lcurly :: mid ++ [rcurly]) := by
    intro hm
    simp at hm
    rcases hm with h | h | h
    · exact absurd h (by decide)
    · exact hmid h
    · exact absurd h (by decide)
  have hnlabt : backtick ∉ ('\n' :: (lcurly :: mid ++ [rcurly]) ++ ['\n']) := by
    intro hm
    simp at hm
    rcases hm with h | h | h | h
    · exact absurd h (by decide)
    · exact absurd h (by decide)
    · exact hmid h
    · rcases h with h | h
      · exact absurd h (by decide)
      · exact absurd h (by decide)
  have hshape : '\n' :: (lcurly :: mid ++ [rcurly]) ++ '\n' :: tripleFence =
      ('\n' :: (lcurly :: mid ++ [rcurly]) ++ ['\n']) ++ tripleFence := by simp
  have h1 : findSub fenceJsonTag
      (tripleFence ++ ('\n' :: (lcurly :: mid ++ [rcurly]) ++ '\n' :: tripleFence)) =
      none := by
    apply findSub_none_of_forall
    intro i
    by_cases h3i : i < 3
    · interval_cases i
      · exact fun h => nomatch h
      · exact fun h => nomatch h
      · exact fun h => nomatch h
    · obtain ⟨j, rfl⟩ : ∃ j, i = j + 3 := ⟨i - 3, by omega⟩
      rw [Nat.add_comm j 3, ← List.drop_drop, drop3_fence, hshape]
      by_cases hj : j < ('\n' :: (lcurly :: mid ++ [rcurly]) ++ ['\n']).length
      · exact not_cons_isPrefixOf_drop backtick _ _ _ hnlabt j hj
      · apply not_isPrefixOf_of_lt_length
        rw [List.length_drop]
        simp only [List.length_append, List.length_cons] at hj ⊢
        simp only [not_lt] at hj
        have h7 : fenceJsonTag.length = 7 := rfl
        have h3' : tripleFence.length = 3 := rfl
        rw [h7, h3']
        simp at hj ⊢
        omega
  have h2 : findSub tripleFence
      (tripleFence ++ ('\n' :: (lcurly :: mid ++ [rcurly]) ++ '\n' :: tripleFence)) =
      some 0 := findSub_of_prefix _ _ (isPrefixOf_append_self _ _)
  have h3 : findSubFrom tripleFence
      (tripleFence ++ ('\n' :: (lcurly :: mid ++ [rcurly]) ++ '\n' :: tripleFence)) 3 =
      some (mid.length + 4 + 3) := by
    unfold findSubFrom
    rw [drop3_fence, hshape, fence_after_wrapped _ hobj_bt]
    simp <;> omega
  have h4 : sliceList
      (tripleFence ++ ('\n' :: (lcurly :: mid ++ [rcurly]) ++ '\n' :: tripleFence))
      3 (mid.length + 4 + 3) =
      '\n' :: (lcurly :: mid ++ [rcurly]) ++ ['\n'] := by
    unfold sliceList
    rw [drop3_fence, hshape]
    have harith : mid.length + 4 + 3 - 3 =
        ('\n' :: (lcurly :: mid ++ [rcurly]) ++ ['\n']).length := by
      simp <;> omega
    rw [harith, List.take_left]
  have h5 : pyStrip ('\n' :: (lcurly :: mid ++ [rcurly]) ++ ['\n']) =
      lcurly :: mid ++ [rcurly] := pyStrip_nl_wrap lcurly rcurly mid rfl rfl
  have hn := narrow_obj mid
  have hlt : 0 < mid.length + 1 := Nat.succ_pos _
  simp only [extract_json_from_content, h1, h2, Nat.zero_add, h3, h4, h5,
    hn.1, hn.2.1, hn.2.2.1, hn.2.2.2, hlt, if_true]

theorem extract_commentary (mid pre post : List Char)
    (hmid : backtick ∉ mid) (hpre : backtick ∉ pre) (hpost : backtick ∉ post)
    (hpre_brace : lcurly ∉ pre) (hpost_brace : rcurly ∉ post) :
    extract_json_from_content (pre ++ (lcurly :: mid ++ [rcurly]) ++ post) =
      lcurly :: mid ++ [rcurly] := by
  have hbt : backtick ∉ (pre ++ (lcurly :: mid ++ [rcurly]) ++ post) := by
    intro hm
    rcases List.mem_append.mp hm with h | h
    · rcases List.mem_append.mp h with h | h
      · exact hpre h
      · rcases List.mem_cons.mp h with h | h
        · exact absurd h (by decide)
        · rcases List.mem_append.mp h with h | h
          · exact hmid h
          · exact absurd (List.mem_singleton.mp h) (by decide)
    · exact hpost h
  have h1 : findSub fenceJsonTag (pre ++ (lcurly :: mid ++ [rcurly]) ++ post) = none :=
    findSub_none_of_no_backtick _ _ hbt
  have h2 : findSub tripleFence (pre ++ (lcurly :: mid ++ [rcurly]) ++ post) = none :=
    findSub_none_of_no_backtick _ _ hbt
  have hshape1 : pre ++ (lcurly :: mid ++ [rcurly]) ++ post =
      pre ++ lcurly :: (mid ++ [rcurly] ++ post) := by simp
  have hshape2 : pre ++ (lcurly :: mid ++ [rcurly]) ++ post =
      (pre ++ lcurly :: mid) ++ rcurly :: post := by simp
  have h3 : findChar lcurly (pre ++ (lcurly :: mid ++ [rcurly]) ++ post) =
      some pre.length := by
    rw [hshape1]
    exact findChar_first lcurly pre _ hpre_brace
  have h4 : rfindChar rcurly (pre ++ (lcurly :: mid ++ [rcurly]) ++ post) =
      some (pre.length + mid.length + 1) := by
    rw [hshape2, rfindChar_last rcurly _ post hpost_brace]
    simp
    omega
  have hlt : pre.length < pre.length + mid.length + 1 := by omega
  have h5 : sliceList (pre ++ (lcurly :: mid ++ [rcurly]) ++ post)
      pre.length (pre.length + mid.length + 1 + 1) = lcurly :: mid ++ [rcurly] := by
    unfold sliceList
    have harith : pre.length + mid.length + 1 + 1 - pre.length = mid.length + 2 := by
      omega
    rw [harith]
    rw [show pre ++ (lcurly :: mid ++ [rcurly]) ++ post =
      pre ++ ((lcurly :: mid ++ [rcurly]) ++ post) from by simp]
    rw [List.drop_left]
    rw [show mid.length + 2 = (lcurly :: mid ++ [rcurly]).length from by simp,
      List.take_left]
  have h6 : pyStrip (lcurly :: mid ++ [rcurly]) = lcurly :: mid ++ [rcurly] :=
    pyStrip_braces lcurly rcurly mid rfl rfl
  simp only [extract_json_from_content, h1, h2, h3, h4, h5, h6, hlt, if_true]

/-- C9 counterexample: the claim promises that for every JSON object
surrounded by brace-free leading/trailing commentary the extractor strips
the commentary and yields the object text; but commentary containing a
``` fence pair triggers the fence-stripping branch first, which keeps only
the text between the first fence pair.  On
`see ```ls``` output: \x7b"q": 1\x7d end` the extractor returns `ls`,
not the JSON object text. -/
theorem extract_json_fence_commentary_cex :
    extract_json_from_content ("see ```ls``` output: \x7b\"q\": 1\x7d end").toList =
      "ls".toList ∧
    "ls".toList ≠ ("\x7b\"q\": 1\x7d").toList := by
  constructor
  · rfl
  · decide

/-- C9 (amended): `_extract_json_from_content` first strips the first
matching (optionally `json`-tagged) fence pair and then narrows to the text
from the first `\x7b` to the last `\x7d` of what remains.  Consequently,
for every JSON object text `obj = \x7b mid \x7d` whose interior contains no
backtick: extraction of `obj` wrapped in a single fenced code block —
`json`-tagged or untagged — yields exactly `obj`; and extraction of `obj`
surrounded by leading and trailing commentary containing no braces *and no
backtick characters* yields exactly `obj`.  (Fence markers inside the
commentary defeat the heuristic — see the counterexample — which is the
restriction added relative to the claim.) -/
theorem extract_json_spec (mid pre post : List Char)
    (hmid : backtick ∉ mid) (hpre : backtick ∉ pre) (hpost : backtick ∉ post)
    (hpre_brace : lcurly ∉ pre) (hpost_brace : rcurly ∉ post) :
    extract_json_from_content
        (fenceJsonTag ++ ('\n' :: (lcurly :: mid ++ [rcurly]) ++ '\n' :: tripleFence)) =
      lcurly :: mid ++ [rcurly] ∧
    extract_json_from_content
        (tripleFence ++ ('\n' :: (lcurly :: mid ++ [rcurly]) ++ '\n' :: tripleFence)) =
      lcurly :: mid ++ [rcurly] ∧
    extract_json_from_content (pre ++ (lcurly :: mid ++ [rcurly]) ++ post) =
      lcurly :: mid ++ [rcurly] :=
  ⟨extract_tagged mid hmid, extract_untagged mid hmid,
   extract_commentary mid pre post hmid hpre hpost hpre_brace hpost_brace⟩

theorem extract_json_spec_witness :
    extract_json_from_content
        (fenceJsonTag ++ ('\n' :: (lcurly :: ("\"questions\": []").toList ++ [rcurly]) ++
          '\n' :: tripleFence)) =
      lcurly :: ("\"questions\": []").toList ++ [rcurly] ∧
    extract_json_from_content
        (tripleFence ++ ('\n' :: (lcurly :: ("\"questions\": []").toList ++ [rcurly]) ++
          '\n' :: tripleFence)) =
      lcurly :: ("\"questions\": []").toList ++ [rcurly] ∧
    extract_json_from_content
        ("Here you go: ".toList ++
          (lcurly :: ("\"questions\": []").toList ++ [rcurly]) ++
          " hope it helps".toList) =
      lcurly :: ("\"questions\": []").toList ++ [rcurly] :=
  extract_json_spec ("\"questions\": []").toList "Here you go: ".toList
    " hope it helps".toList (by decide) (by decide) (by decide) (by decide) (by decide)
